import Mathlib

/-!
Shallow embedding of the dataset abstraction layer of the aer-datasets
repository, covering:

* `AERDataset.preload` (src/src/aardt/datasets/AERDataset.py, lines 59-89):
  a marker file `.preload.npy` in the dataset working directory records the
  list of signal types already preloaded; `preload()` reads it with
  `np.load`, skips work when the current selection is a subset of the
  persisted set, otherwise runs the abstract `_preload_dataset()` and then
  overwrites the marker with the current selection via `np.save`.

* `AERDataset.get_trial_splits` (same file, lines 152-196): validates that
  the split fractions sum to 1.0 within 1e-4, returns the flat trial list
  for one split, otherwise converts fractions to integer participant counts
  by truncation (`astype(np.int32)`), dumps any rounding remainder on the
  first count, draws participant groups without replacement via
  `np.random.choice`, and groups trials by participant membership.

* `AscertainTrial` (src/datasets/ascertain/AscertainTrial.py): lazy ECG
  duration metadata and the `load_signal_data` dispatch with its error
  behavior.

Python floats are embedded as `ℚ`; the non-determinism of
`np.random.choice` is embedded as an explicit chooser function; exceptions
are embedded as `Except` values or an explicit "raised" flag.
-/

/-! ## Preload marker model (AERDataset.preload) -/

/-- State of the on-disk preload marker file `.preload.npy`: it can be
absent, present but unreadable/corrupt (in which case `np.load` raises), or
present with a readable list of signal-type names. -/
inductive MarkerFile
  | absent
  | corrupt
  | valid (persisted : List String)
deriving DecidableEq

/-- Observable state relevant to `AERDataset.preload`: the marker file in
the working directory, plus a counter of how many times the
dataset-specific `_preload_dataset` routine has been invoked (so that
"preparation ran" is visible in the model). -/
structure PreloadState where
  marker : MarkerFile
  prepCalls : ℕ
deriving DecidableEq

/-- Embedding of `AERDataset.preload` (AERDataset.py lines 79-89).
`signals` is `self.signals`; `prepSucceeds` says whether the abstract
`_preload_dataset()` call returns normally or raises.  The returned `Bool`
is `true` when the call raises an exception to the caller (either from
`np.load` on a corrupt marker or from a failing `_preload_dataset`).
`np.save` runs only after `_preload_dataset()` returns, so on failure the
marker is left untouched.  The subset test mirrors
`set(self.signals).issubset(preloaded_signals)`. -/
def preload (signals : List String) (prepSucceeds : Bool) (st : PreloadState) :
    PreloadState × Bool :=
  match st.marker with
  | .corrupt => (st, true)
  | .valid persisted =>
    if signals ⊆ persisted then
      (st, false)
    else if prepSucceeds then
      ({ marker := .valid signals, prepCalls := st.prepCalls + 1 }, false)
    else
      ({ marker := st.marker, prepCalls := st.prepCalls + 1 }, true)
  | .absent =>
    if prepSucceeds then
      ({ marker := .valid signals, prepCalls := st.prepCalls + 1 }, false)
    else
      ({ marker := st.marker, prepCalls := st.prepCalls + 1 }, true)

/-- C2 counterexample: the claim quantifies over every state of the
preload marker file, but with a marker file that exists yet is unreadable
(corrupt) the current selection is a member of no persisted set, so the
claim demands that `preload()` invoke the preparation routine and persist
the selection — instead the call raises the `np.load` error, leaving
`prepCalls` and the marker unchanged. -/
theorem preload_noop_iff_cex :
    preload ["EEG"] true ⟨.corrupt, 2⟩ = (⟨.corrupt, 2⟩, true) ∧
    (¬ ∃ p, (PreloadState.mk .corrupt 2).marker = .valid p ∧
      (["EEG"] : List String) ⊆ p) ∧
    preload ["EEG"] true ⟨.corrupt, 2⟩ ≠
      ({ marker := .valid ["EEG"], prepCalls := 2 + 1 }, false) := by
  refine ⟨rfl, ?_, by decide⟩
  rintro ⟨p, hp, _⟩
  cases hp

/-- C2 (amended): with a succeeding preparation routine, for a readable
marker state (file absent, or present with a parseable signal list)
`preload()` is a no-op (state unchanged, nothing raised, nothing written)
iff the marker file exists and every selected signal type is a member of
the persisted set, and otherwise it invokes `_preload_dataset` exactly
once and overwrites the marker with the current selection; for a marker
file that exists but is unreadable, `preload()` instead raises the read
error, neither skipping nor preparing. -/
theorem preload_noop_iff (signals : List String) (st : PreloadState) :
    (st.marker ≠ .corrupt →
      ((preload signals true st = (st, false) ↔
        ∃ p, st.marker = .valid p ∧ signals ⊆ p) ∧
      ((¬ ∃ p, st.marker = .valid p ∧ signals ⊆ p) →
        preload signals true st =
          ({ marker := .valid signals, prepCalls := st.prepCalls + 1 }, false)))) ∧
    (st.marker = .corrupt → preload signals true st = (st, true)) := by
  constructor
  · intro h
    obtain ⟨m, c⟩ := st
    cases m with
    | corrupt => exact absurd rfl h
    | valid p =>
      by_cases hsub : signals ⊆ p
      · constructor
        · simp [preload, hsub]
        · intro hno
          exact absurd ⟨p, rfl, hsub⟩ hno
      · constructor
        · constructor
          · intro heq
            simp [preload, hsub] at heq
          · rintro ⟨q, hq, hsubq⟩
            cases hq
            exact absurd hsubq hsub
        · intro _
          simp [preload, hsub]
    | absent =>
      constructor
      · constructor
        · intro heq
          simp [preload] at heq
        · rintro ⟨q, hq, _⟩
          cases hq
      · intro _
        simp [preload]
  · intro h
    obtain ⟨m, c⟩ := st
    cases h
    rfl

/-- Witness for `preload_noop_iff`: with marker persisted for `{ECG}` and a
current selection `{ECG, GSR}`, `preload()` runs preparation again and
updates the marker to `{ECG, GSR}`. -/
theorem preload_noop_iff_witness :
    (PreloadState.mk (.valid ["ECG"]) 0).marker ≠ .corrupt ∧
    preload ["ECG", "GSR"] true ⟨.valid ["ECG"], 0⟩ =
      (⟨.valid ["ECG", "GSR"], 1⟩, false) := by
  refine ⟨by decide, ?_⟩
  exact ((preload_noop_iff ["ECG", "GSR"] ⟨.valid ["ECG"], 0⟩).1 (by decide)).2
    (by
      rintro ⟨p, hp, hsub⟩
      cases hp
      have := hsub (List.mem_cons_of_mem _ (List.mem_cons_self _ _))
      simp at this)

/-- C5: calling `preload()` twice in succession with the same signal-type
selection runs `_preload_dataset` at most once, and the second call leaves
the state unchanged. -/
theorem preload_idempotent (signals : List String) (st : PreloadState) :
    (preload signals true (preload signals true st).1).1 =
      (preload signals true st).1 ∧
    (preload signals true (preload signals true st).1).1.prepCalls ≤
      st.prepCalls + 1 := by
  obtain ⟨m, c⟩ := st
  cases m with
  | corrupt => simp [preload]
  | valid p =>
    by_cases hsub : signals ⊆ p
    · simp [preload, hsub]
    · simp [preload, hsub, List.Subset.refl]
  | absent =>
    simp [preload, List.Subset.refl]

/-- C6: if the dataset-specific preparation routine raises, the persisted
preload marker is left unchanged — `np.save` runs only after
`_preload_dataset()` has returned normally. -/
theorem preload_failure_keeps_marker (signals : List String) (st : PreloadState) :
    ((preload signals false st).1).marker = st.marker := by
  obtain ⟨m, c⟩ := st
  cases m with
  | corrupt => simp [preload]
  | valid p =>
    by_cases hsub : signals ⊆ p
    · simp [preload, hsub]
    · simp [preload, hsub]
  | absent => simp [preload]

/-- C7 counterexample: with a corrupt (unreadable) marker file, `preload()`
propagates the `np.load` exception — the preparation routine does not run
(`prepCalls` stays 0) and the marker is not rewritten, contradicting the
claim that a corrupt marker is treated as "preload needed". -/
theorem preload_corrupt_raises_cex :
    preload ["ECG"] true ⟨.corrupt, 0⟩ = (⟨.corrupt, 0⟩, true) := rfl

/-- C7 (amended): if the preload marker file exists but is unreadable or
corrupt, `preload()` raises the read error to the caller, leaving the
marker untouched and never invoking the preparation routine. -/
theorem preload_corrupt_raises (signals : List String) (st : PreloadState)
    (h : st.marker = .corrupt) :
    preload signals true st = (st, true) := by
  obtain ⟨m, c⟩ := st
  cases h
  rfl

/-- Witness for `preload_corrupt_raises` at a concrete corrupt-marker state. -/
theorem preload_corrupt_raises_witness :
    (PreloadState.mk .corrupt 5).marker = .corrupt ∧
    preload ["GSR"] true ⟨.corrupt, 5⟩ = (⟨.corrupt, 5⟩, true) :=
  ⟨rfl, preload_corrupt_raises ["GSR"] ⟨.corrupt, 5⟩ rfl⟩

/-- C10: whenever `preload()` actually runs the preparation routine, the
marker written afterwards is exactly the current selection (`np.save`
replaces the file, it does not union with the prior record); consequently
alternating between two selections, neither containing the other, re-runs
preparation on every call (three calls from a fresh state run it three
times). -/
theorem preload_marker_replaced (s A B : List String) (st : PreloadState)
    (h : ((preload s true st).1).prepCalls = st.prepCalls + 1)
    (hAB : ¬ A ⊆ B) (hBA : ¬ B ⊆ A) :
    ((preload s true st).1).marker = .valid s ∧
    ((preload A true
      ((preload B true ((preload A true ⟨.absent, 0⟩).1)).1)).1).prepCalls = 3 := by
  constructor
  · obtain ⟨m, c⟩ := st
    cases m with
    | corrupt => simp [preload] at h
    | valid p =>
      by_cases hsub : s ⊆ p
      · simp [preload, hsub] at h
      · simp [preload, hsub]
    | absent => simp [preload]
  · simp [preload, hAB, hBA]

/-- Witness for `preload_marker_replaced`: preloading `{GSR}` over a marker
holding `{ECG}` runs preparation (so the marker becomes exactly `{GSR}`),
and alternating `{ECG}`, `{GSR}`, `{ECG}` from a fresh state runs
preparation three times. -/
theorem preload_marker_replaced_witness :
    ((preload ["GSR"] true ⟨.valid ["ECG"], 0⟩).1).prepCalls = 0 + 1 ∧
    ((preload ["GSR"] true ⟨.valid ["ECG"], 0⟩).1).marker = .valid ["GSR"] ∧
    ((preload ["ECG"] true
      ((preload ["GSR"] true ((preload ["ECG"] true ⟨.absent, 0⟩).1)).1)).1).prepCalls = 3 := by
  have h := preload_marker_replaced ["GSR"] ["ECG"] ["GSR"] ⟨.valid ["ECG"], 0⟩
    (by decide) (by decide) (by decide)
  exact ⟨by decide, h.1, h.2⟩

/-! ## AscertainTrial model (src/datasets/ascertain/AscertainTrial.py)

The base class `AERTrial` (in `datasets/__init__`) is not under `src/`;
per the spec's data model, a trial carries "a mapping from signal-type name
to an opaque file handle/reference" (`self._signal_data_files`), here an
association list from signal-type names to parsed mat-file contents
(`scipy.io.loadmat` is treated as already applied).  Python's
`datetime(...).timestamp()` conversion is abstracted as a function
`epochOf` from the raw `timeECG` start-time array to epoch seconds;
`timedelta(milliseconds=ts)` then adds `ts / 1000` seconds. -/

/-- Errors raised by `AscertainTrial.load_signal_data`: `keyError` from the
`self._signal_data_files[signal_type]` dict lookup, `indexError` from
out-of-range numpy indexing in `_load_ecg_signal_data`, `valueError` from
the explicit `raise ValueError(...)` branch. -/
inductive TrialError
  | keyError (key : String)
  | indexError
  | valueError (msg : String)
deriving DecidableEq

/-- Parsed contents of one ASCERTAIN mat file: `timeECG[0]` (the recording
start-time component array) and `Data_ECG` (one row per sample). -/
structure MatFile where
  timeECG : List ℚ
  dataECG : List (List ℚ)
deriving DecidableEq

/-- ASCERTAIN_ECG_SAMPLE_RATE = 256 (AscertainTrial.py line 7). -/
def ASCERTAIN_ECG_SAMPLE_RATE : ℕ := 256

/-- ASCERTAIN_ECG_N_CHANNELS = 2 (AscertainTrial.py line 8). -/
def ASCERTAIN_ECG_N_CHANNELS : ℕ := 2

/-- One AscertainTrial: participant/movie ids (from the `AERTrial` base
constructor, modelled from the spec since the base class is not under
`src/`), the signal-data file mapping, and the lazily cached ECG duration
(`self._ecg_signal_duration`, initialized to `None` in `__init__`). -/
structure AscertainTrial where
  participant_id : ℕ
  movie_id : ℕ
  signalDataFiles : List (String × MatFile)
  ecgSignalDuration : Option ℚ
deriving DecidableEq

/-- The metadata dict returned by `AscertainTrial.get_signal_metadata`. -/
structure SignalMetadata where
  signal_type : String
  sample_rate : ℕ
  n_channels : ℕ
  duration : Option ℚ
deriving DecidableEq

/-- Embedding of `AscertainTrial.get_signal_metadata` (lines 19-26): a
metadata dict for `'ECG'`, and Python's implicit `None` for any other
signal type. -/
def getSignalMetadata (t : AscertainTrial) (signalType : String) :
    Option SignalMetadata :=
  if signalType = "ECG" then
    some ⟨"ECG", ASCERTAIN_ECG_SAMPLE_RATE, ASCERTAIN_ECG_N_CHANNELS,
      t.ecgSignalDuration⟩
  else
    none

/-- Embedding of `AscertainTrial._load_ecg_signal_data` (lines 47-77).
`Data_ECG` is a rectangular numpy array; column indices are picked from the
first row's width (`1,2` when fewer than 6 columns, else `4,5`), an empty
array or a row too narrow for those indices raises an IndexError.  The
result is the transposed buffer `[timestamps, left-arm, right-arm]`, the
timestamp column converted to epoch seconds by adding each millisecond
offset (divided by 1000) to the start time. -/
def loadEcgSignalData (epochOf : List ℚ → ℚ) (mat : MatFile) :
    Except TrialError (List (List ℚ)) :=
  match mat.dataECG with
  | [] => .error .indexError
  | r0 :: rows =>
    let leftIdx := if r0.length < 6 then 1 else 4
    let rightIdx := if r0.length < 6 then 2 else 5
    if (r0 :: rows).all (fun row => rightIdx < row.length) then
      .ok [(r0 :: rows).map (fun row => epochOf mat.timeECG + row.getD 0 0 / 1000),
           (r0 :: rows).map (fun row => row.getD leftIdx 0),
           (r0 :: rows).map (fun row => row.getD rightIdx 0)]
    else
      .error .indexError

/-- Embedding of `AscertainTrial.load_signal_data` (lines 28-41): line 29
is the dict lookup `self._signal_data_files[signal_type]` (KeyError when
absent), then dispatch on the signal type; the ECG branch caches
`data.shape[1] / ASCERTAIN_ECG_SAMPLE_RATE` as the signal duration; the
GSR and EEG loaders are stubs returning `[]`; any other type reaches the
explicit `raise ValueError(...)`. -/
def loadSignalData (epochOf : List ℚ → ℚ) (t : AscertainTrial)
    (signalType : String) :
    Except TrialError (List (List ℚ) × AscertainTrial) :=
  match List.lookup signalType t.signalDataFiles with
  | none => .error (.keyError signalType)
  | some matfile =>
    if signalType = "ECG" then
      match loadEcgSignalData epochOf matfile with
      | .error e => .error e
      | .ok data =>
        let dur : ℚ := ((data.headD []).length : ℚ) / (ASCERTAIN_ECG_SAMPLE_RATE : ℚ)
        .ok (data, { t with ecgSignalDuration := some dur })
    else if signalType = "GSR" then
      .ok ([], t)
    else if signalType = "EEG" then
      .ok ([], t)
    else
      .error (.valueError ("_load_signal_data not implemented for signal type "
        ++ signalType))

/-- True exactly on the error raised by the explicit
`raise ValueError('_load_signal_data not implemented ...')` branch, the
source's realization of the spec's UnsupportedSignalError. -/
def isUnsupportedSignalError : TrialError → Bool
  | .valueError _ => true
  | _ => false

/-- A successful `_load_ecg_signal_data` returns a buffer whose second
dimension (`data.shape[1]`) equals the number of rows of `Data_ECG`, i.e.
the sample count. -/
theorem loadEcg_shape (epochOf : List ℚ → ℚ) (mat : MatFile)
    (data : List (List ℚ)) (h : loadEcgSignalData epochOf mat = .ok data) :
    (data.headD []).length = mat.dataECG.length := by
  unfold loadEcgSignalData at h
  cases hrows : mat.dataECG with
  | nil => rw [hrows] at h; exact absurd h (by simp)
  | cons r0 rows =>
    rw [hrows] at h
    by_cases hall : (r0 :: rows).all
        (fun row => (if r0.length < 6 then 2 else 5) < row.length)
    · simp only [hall, if_true] at h
      obtain rfl := (Except.ok.injEq _ _).mp h.symm
      simp
    · simp only [hall, if_false] at h
      exact absurd h (by simp)

/-- C8: for an AscertainTrial (whose `_ecg_signal_duration` is initialized
to `None`), `get_signal_metadata('ECG')` reports duration `None` before
`load_signal_data('ECG')` has run; once `load_signal_data('ECG')` has
loaded an N-sample signal, the cached duration equals N divided by the
256 Hz sample rate, reported alongside the sample rate and channel count;
in particular 2560 samples at 256 Hz give duration 10. -/
theorem ascertain_ecg_duration (epochOf : List ℚ → ℚ) (pid mid : ℕ)
    (files : List (String × MatFile)) (mat : MatFile) (data : List (List ℚ))
    (hlk : List.lookup "ECG" files = some mat)
    (hecg : loadEcgSignalData epochOf mat = .ok data) :
    getSignalMetadata ⟨pid, mid, files, none⟩ "ECG" =
      some ⟨"ECG", ASCERTAIN_ECG_SAMPLE_RATE, ASCERTAIN_ECG_N_CHANNELS, none⟩ ∧
    loadSignalData epochOf ⟨pid, mid, files, none⟩ "ECG" =
      .ok (data, ⟨pid, mid, files,
        some ((mat.dataECG.length : ℚ) / (ASCERTAIN_ECG_SAMPLE_RATE : ℚ))⟩) ∧
    getSignalMetadata ⟨pid, mid, files,
        some ((mat.dataECG.length : ℚ) / (ASCERTAIN_ECG_SAMPLE_RATE : ℚ))⟩ "ECG" =
      some ⟨"ECG", ASCERTAIN_ECG_SAMPLE_RATE, ASCERTAIN_ECG_N_CHANNELS,
        some ((mat.dataECG.length : ℚ) / (ASCERTAIN_ECG_SAMPLE_RATE : ℚ))⟩ ∧
    ((2560 : ℚ) / (ASCERTAIN_ECG_SAMPLE_RATE : ℚ) = 10) := by
  have hshape := loadEcg_shape epochOf mat data hecg
  refine ⟨rfl, ?_, rfl, by norm_num [ASCERTAIN_ECG_SAMPLE_RATE]⟩
  unfold loadSignalData
  rw [hlk]
  simp only [if_pos rfl, hecg, hshape, if_true, ite_true]

/-- Witness for `ascertain_ecg_duration` on a concrete 8-sample, 3-column
mat file. -/
theorem ascertain_ecg_duration_witness :
    List.lookup "ECG"
      [("ECG", (⟨[2010, 1, 1, 0, 0, 0],
        [[0, 0, 0], [0, 0, 0], [0, 0, 0], [0, 0, 0],
         [0, 0, 0], [0, 0, 0], [0, 0, 0], [0, 0, 0]]⟩ : MatFile))] =
      some ⟨[2010, 1, 1, 0, 0, 0],
        [[0, 0, 0], [0, 0, 0], [0, 0, 0], [0, 0, 0],
         [0, 0, 0], [0, 0, 0], [0, 0, 0], [0, 0, 0]]⟩ ∧
    loadEcgSignalData (fun _ => 0)
      ⟨[2010, 1, 1, 0, 0, 0],
        [[0, 0, 0], [0, 0, 0], [0, 0, 0], [0, 0, 0],
         [0, 0, 0], [0, 0, 0], [0, 0, 0], [0, 0, 0]]⟩ =
      .ok [List.replicate 8 ((0:ℚ) + (0:ℚ) / 1000),
        List.replicate 8 (0:ℚ), List.replicate 8 (0:ℚ)] ∧
    getSignalMetadata ⟨7, 3,
        [("ECG", ⟨[2010, 1, 1, 0, 0, 0],
          [[0, 0, 0], [0, 0, 0], [0, 0, 0], [0, 0, 0],
           [0, 0, 0], [0, 0, 0], [0, 0, 0], [0, 0, 0]]⟩)], none⟩ "ECG" =
      some ⟨"ECG", ASCERTAIN_ECG_SAMPLE_RATE, ASCERTAIN_ECG_N_CHANNELS, none⟩ := by
  refine ⟨rfl, rfl, ?_⟩
  exact (ascertain_ecg_duration (fun _ => 0) 7 3
    [("ECG", ⟨[2010, 1, 1, 0, 0, 0],
      [[0, 0, 0], [0, 0, 0], [0, 0, 0], [0, 0, 0],
       [0, 0, 0], [0, 0, 0], [0, 0, 0], [0, 0, 0]]⟩)]
    ⟨[2010, 1, 1, 0, 0, 0],
      [[0, 0, 0], [0, 0, 0], [0, 0, 0], [0, 0, 0],
       [0, 0, 0], [0, 0, 0], [0, 0, 0], [0, 0, 0]]⟩
    [List.replicate 8 ((0:ℚ) + (0:ℚ) / 1000),
     List.replicate 8 (0:ℚ), List.replicate 8 (0:ℚ)] rfl rfl).1

/-- C9 counterexample: requesting an unsupported signal type for which the
trial holds no data-file reference fails at the dict lookup
`self._signal_data_files[signal_type]` with a KeyError, not with the
UnsupportedSignalError-style ValueError of the explicit `raise` branch —
so the claim, as stated for every unsupported type, is false. -/
theorem loadSignalData_unsupported_cex :
    loadSignalData (fun _ => 0) ⟨1, 1, [], none⟩ "XYZ" =
      .error (.keyError "XYZ") ∧
    isUnsupportedSignalError (TrialError.keyError "XYZ") = false :=
  ⟨rfl, rfl⟩

/-- C9 (amended): for a signal type not supported by `AscertainTrial`
(neither ECG, GSR nor EEG), `load_signal_data` always fails: with a
KeyError on the signal type when the trial holds no data-file reference
for it, and with the UnsupportedSignalError-style ValueError whose message
names the requested type when a data-file reference exists. -/
theorem loadSignalData_unsupported (epochOf : List ℚ → ℚ)
    (t : AscertainTrial) (signalType : String)
    (h : signalType ∉ (["ECG", "GSR", "EEG"] : List String)) :
    (List.lookup signalType t.signalDataFiles = none →
      loadSignalData epochOf t signalType = .error (.keyError signalType)) ∧
    (∀ mat, List.lookup signalType t.signalDataFiles = some mat →
      loadSignalData epochOf t signalType =
        .error (.valueError
          ("_load_signal_data not implemented for signal type " ++ signalType)) ∧
      isUnsupportedSignalError
        (TrialError.valueError
          ("_load_signal_data not implemented for signal type " ++ signalType))
        = true) := by
  simp only [List.mem_cons, List.not_mem_nil, or_false, not_or] at h
  obtain ⟨h1, h2, h3⟩ := h
  constructor
  · intro hnone
    unfold loadSignalData
    rw [hnone]
  · intro mat hsome
    refine ⟨?_, rfl⟩
    unfold loadSignalData
    rw [hsome]
    simp only [if_neg h1, if_neg h2, if_neg h3]

/-- Witness for `loadSignalData_unsupported`: loading type `"RESP"` when a
data file for it is present raises the ValueError naming the type. -/
theorem loadSignalData_unsupported_witness :
    ("RESP" ∉ (["ECG", "GSR", "EEG"] : List String)) ∧
    loadSignalData (fun _ => 0)
      ⟨1, 1, [("RESP", ⟨[], []⟩)], none⟩ "RESP" =
      .error (.valueError
        ("_load_signal_data not implemented for signal type " ++ "RESP")) := by
  refine ⟨by decide, ?_⟩
  exact ((loadSignalData_unsupported (fun _ => 0)
    ⟨1, 1, [("RESP", ⟨[], []⟩)], none⟩ "RESP" (by decide)).2 ⟨[], []⟩ rfl).1

/-! ## Participant splitting model (AERDataset.get_trial_splits) -/

/-- A trial as seen by `get_trial_splits`: only its (offset-adjusted)
participant id matters; `trial_id` distinguishes trials of one
participant. -/
structure STrial where
  participant_id : ℕ
  trial_id : ℕ
deriving DecidableEq

/-- Errors raised inside `get_trial_splits`: `badSum` is the explicit
`raise ValueError("Splits must sum to be 1.0")`; `badChoiceSize` is the
ValueError raised by `np.random.choice(pool, k, False)` when `k` is
negative or exceeds the pool size. -/
inductive SplitError
  | badSum
  | badChoiceSize
deriving DecidableEq

/-- Result of `get_trial_splits`: a flat list of all trials (for zero or
one split) or a list of trial groups. -/
inductive SplitResult
  | flat (ts : List STrial)
  | grouped (tss : List (List STrial))
deriving DecidableEq

/-- Truncation toward zero, the effect of numpy's
`.astype(dtype=np.int32)` on a float (int32 overflow is not modelled;
participant counts stay far below 2^31). -/
def truncQ (q : ℚ) : ℤ := if 0 ≤ q then ⌊q⌋ else ⌈q⌉

/-- `(np.array(splits) * len(self.participant_ids)).astype(np.int32)`:
each fraction times the participant count, truncated to an integer. -/
def rawCounts (splits : List ℚ) (n : ℕ) : List ℤ :=
  splits.map (fun s => truncQ (s * (n : ℚ)))

/-- `if sum(splits) != len(self.participant_ids): splits[0] += ...`:
dump the rounding remainder on the first count. -/
def adjustFirst (counts : List ℤ) (n : ℕ) : List ℤ :=
  if counts.sum ≠ (n : ℤ) then
    match counts with
    | [] => []
    | c :: cs => (c + ((n : ℤ) - (c :: cs).sum)) :: cs
  else
    counts

/-- Union of a list of finsets (the set of all participants chosen so
far, `set([x for xs in participant_splits for x in xs])`). -/
def unionList (l : List (Finset ℕ)) : Finset ℕ :=
  l.foldr (· ∪ ·) ∅

/-- A chooser embedding `np.random.choice(list(all_ids), k, False)`: given
the remaining pool (a Python set) and a requested size, it returns the
drawn group.  `ChooserOK` states the contract numpy guarantees whenever
`k ≤ |pool|`: the draw is a subset of the pool of exactly the requested
size (sampling without replacement). -/
def ChooserOK (choose : Finset ℕ → ℕ → Finset ℕ) : Prop :=
  ∀ pool k, k ≤ pool.card → choose pool k ⊆ pool ∧ (choose pool k).card = k

/-- The participant-splitting loop of `get_trial_splits` (lines 183-189):
for each requested count, draw that many participants from `all_ids`, then
remove everything drawn so far from `all_ids`.  `np.random.choice` raises
a ValueError for a negative size or a size exceeding the pool, embedded as
`badChoiceSize`. -/
def drawLoop (choose : Finset ℕ → ℕ → Finset ℕ) :
    List ℤ → Finset ℕ → List (Finset ℕ) → Except SplitError (List (Finset ℕ))
  | [], _, acc => .ok acc
  | k :: ks, pool, acc =>
    if k < 0 ∨ pool.card < k.toNat then
      .error .badChoiceSize
    else
      drawLoop choose ks
        (pool \ unionList (acc ++ [choose pool k.toNat]))
        (acc ++ [choose pool k.toNat])

/-- Fraction-to-count conversion followed by the participant draw: lines
177-189 of AERDataset.py. -/
def participantSplits (choose : Finset ℕ → ℕ → Finset ℕ)
    (pids : Finset ℕ) (splits : List ℚ) : Except SplitError (List (Finset ℕ)) :=
  drawLoop choose (adjustFirst (rawCounts splits pids.card) pids.card) pids []

/-- Embedding of `AERDataset.get_trial_splits` (lines 152-196).
`allTrials` is `self._all_trials`, `pids` is `self.participant_ids`
(already a set of offset-adjusted ids).  `None` defaults to `[1]`; the
fractions must sum to 1.0 within 1e-4 or a ValueError is raised; a single
split returns the flat trial list; otherwise participants are split and
each group of trials keeps the original trial order
(`[trial for trial in self.trials if trial.participant_id in split]`). -/
def getTrialSplits (choose : Finset ℕ → ℕ → Finset ℕ)
    (allTrials : List STrial) (pids : Finset ℕ)
    (splitsOpt : Option (List ℚ)) : Except SplitError SplitResult :=
  let splits := splitsOpt.getD [1]
  if (1 : ℚ)/10000 < |1 - splits.sum| then
    .error .badSum
  else if splits.length = 1 then
    .ok (.flat allTrials)
  else
    match participantSplits choose pids splits with
    | .error e => .error e
    | .ok gs =>
      .ok (.grouped (gs.map (fun g =>
        allTrials.filter (fun t => t.participant_id ∈ g))))

/-- The deterministic chooser used as a concrete instance of
`np.random.choice`: take the first `k` elements of the sorted pool. -/
def pickFirst (s : Finset ℕ) (k : ℕ) : Finset ℕ :=
  ((s.sort (· ≤ ·)).take k).toFinset

theorem unionList_nil : unionList [] = (∅ : Finset ℕ) := rfl

theorem unionList_cons (a : Finset ℕ) (l : List (Finset ℕ)) :
    unionList (a :: l) = a ∪ unionList l := rfl

theorem unionList_append (l₁ l₂ : List (Finset ℕ)) :
    unionList (l₁ ++ l₂) = unionList l₁ ∪ unionList l₂ := by
  induction l₁ with
  | nil => simp [unionList_nil, unionList_cons]
  | cons a l ih =>
    simp only [List.cons_append, unionList_cons, ih, Finset.union_assoc]

theorem subset_unionList_of_mem {a : Finset ℕ} {l : List (Finset ℕ)}
    (h : a ∈ l) : a ⊆ unionList l := by
  induction l with
  | nil => cases h
  | cons b l ih =>
    rcases List.mem_cons.mp h with rfl | h
    · rw [unionList_cons]; exact Finset.subset_union_left
    · rw [unionList_cons]
      exact (ih h).trans Finset.subset_union_right

theorem disjoint_unionList {l : List (Finset ℕ)} {s : Finset ℕ}
    (h : ∀ a ∈ l, Disjoint a s) : Disjoint (unionList l) s := by
  induction l with
  | nil => simp [unionList_nil]
  | cons b l ih =>
    rw [unionList_cons, Finset.disjoint_union_left]
    exact ⟨h b (List.mem_cons_self _ _), ih (fun a ha => h a (List.mem_cons_of_mem _ ha))⟩

/-- Key invariant of the drawing loop: when the requested counts are
non-negative and sum to the pool size, and the chooser meets numpy's
without-replacement contract, the loop succeeds and the drawn groups are
pairwise disjoint, have exactly the requested sizes, and exhaust the
pool. -/
theorem drawLoop_partition (choose : Finset ℕ → ℕ → Finset ℕ)
    (hch : ChooserOK choose) :
    ∀ (ks : List ℤ) (pool : Finset ℕ) (acc : List (Finset ℕ)),
      (∀ k ∈ ks, 0 ≤ k) →
      (ks.map Int.toNat).sum = pool.card →
      (∀ a ∈ acc, Disjoint a pool) →
      ∃ gs, drawLoop choose ks pool acc = .ok (acc ++ gs) ∧
        gs.length = ks.length ∧
        gs.map Finset.card = ks.map Int.toNat ∧
        unionList gs = pool ∧
        gs.Pairwise Disjoint := by
  intro ks
  induction ks with
  | nil =>
    intro pool acc _ hsum _
    have hpool : pool = ∅ := Finset.card_eq_zero.mp (by simpa using hsum.symm)
    exact ⟨[], by simp [drawLoop], rfl, rfl, by simp [unionList_nil, hpool], by simp⟩
  | cons k ks ih =>
    intro pool acc hpos hsum hacc
    have hk0 : 0 ≤ k := hpos k (List.mem_cons_self _ _)
    have hkle : k.toNat ≤ pool.card := by
      rw [← hsum, List.map_cons, List.sum_cons]
      exact Nat.le_add_right _ _
    have hcond : ¬ (k < 0 ∨ pool.card < k.toNat) := by
      rw [not_or, not_lt, not_lt]
      exact ⟨hk0, hkle⟩
    obtain ⟨hsub, hcard⟩ := hch pool k.toNat hkle
    have hdis : Disjoint (unionList acc) pool := disjoint_unionList hacc
    have hpool' : pool \ unionList (acc ++ [choose pool k.toNat]) =
        pool \ choose pool k.toNat := by
      rw [unionList_append, unionList_cons, unionList_nil, Finset.union_empty,
        Finset.sdiff_union_distrib,
        Finset.sdiff_eq_self_iff_disjoint.mpr hdis.symm]
      exact Finset.inter_eq_right.mpr (Finset.sdiff_subset)
    have hsum' : (ks.map Int.toNat).sum = (pool \ choose pool k.toNat).card := by
      rw [Finset.card_sdiff hsub, hcard, ← hsum, List.map_cons, List.sum_cons]
      omega
    have hacc' : ∀ a ∈ acc ++ [choose pool k.toNat],
        Disjoint a (pool \ choose pool k.toNat) := by
      intro a ha
      rcases List.mem_append.mp ha with ha | ha
      · exact (hacc a ha).mono_right (Finset.sdiff_subset)
      · rw [List.mem_singleton.mp ha]
        exact Finset.disjoint_sdiff
    obtain ⟨gs', heq, hlen, hcards, hunion, hpw⟩ :=
      ih (pool \ choose pool k.toNat) (acc ++ [choose pool k.toNat])
        (fun x hx => hpos x (List.mem_cons_of_mem _ hx)) hsum' hacc'
    refine ⟨choose pool k.toNat :: gs', ?_, by simp [hlen], ?_, ?_, ?_⟩
    · show drawLoop choose (k :: ks) pool acc = _
      rw [drawLoop, if_neg hcond, hpool', heq, List.append_assoc,
        List.singleton_append]
    · simp [hcards, hcard]
    · rw [unionList_cons, hunion, Finset.union_sdiff_of_subset hsub]
    · refine List.pairwise_cons.mpr ⟨?_, hpw⟩
      intro b hb
      exact Finset.disjoint_sdiff.mono_right
        ((subset_unionList_of_mem hb).trans (le_of_eq hunion))

theorem truncQ_nonneg {q : ℚ} (h : 0 ≤ q) : 0 ≤ truncQ q := by
  rw [truncQ, if_pos h]
  exact Int.floor_nonneg.mpr h

theorem toNat_sum_of_nonneg :
    ∀ (l : List ℤ), (∀ x ∈ l, 0 ≤ x) → ((l.map Int.toNat).sum : ℤ) = l.sum := by
  intro l
  induction l with
  | nil => simp
  | cons x xs ih =>
    intro h
    rw [List.map_cons, List.sum_cons, List.sum_cons, Nat.cast_add,
      Int.toNat_of_nonneg (h x (List.mem_cons_self _ _)),
      ih (fun y hy => h y (List.mem_cons_of_mem _ hy))]

/-- The integer counts produced for a non-empty split list of non-negative
fractions: all counts are non-negative and sum to the participant count,
provided the truncated counts of all but the first fraction do not exceed
the participant count (the condition the first count's remainder
adjustment needs in order not to go negative). -/
theorem counts_spec (s0 : ℚ) (rest : List ℚ) (n : ℕ)
    (hpos : ∀ s ∈ s0 :: rest, 0 ≤ s)
    (htail : (rawCounts rest n).sum ≤ (n : ℤ)) :
    (∀ k ∈ adjustFirst (rawCounts (s0 :: rest) n) n, 0 ≤ k) ∧
    ((adjustFirst (rawCounts (s0 :: rest) n) n).map Int.toNat).sum = n ∧
    (adjustFirst (rawCounts (s0 :: rest) n) n).length = (s0 :: rest).length := by
  have hc0 : 0 ≤ truncQ (s0 * (n : ℚ)) :=
    truncQ_nonneg (mul_nonneg (hpos s0 (List.mem_cons_self _ _)) (Nat.cast_nonneg n))
  have hcs : ∀ k ∈ rawCounts rest n, 0 ≤ k := by
    intro k hk
    obtain ⟨s, hs, rfl⟩ := List.mem_map.mp hk
    exact truncQ_nonneg
      (mul_nonneg (hpos s (List.mem_cons_of_mem _ hs)) (Nat.cast_nonneg n))
  have hraw : rawCounts (s0 :: rest) n =
      truncQ (s0 * (n : ℚ)) :: rawCounts rest n := rfl
  rw [hraw, adjustFirst]
  by_cases hne : (truncQ (s0 * (n : ℚ)) :: rawCounts rest n).sum ≠ (n : ℤ)
  · rw [if_pos hne]
    have hfirst : 0 ≤ truncQ (s0 * (n : ℚ)) +
        ((n : ℤ) - (truncQ (s0 * (n : ℚ)) :: rawCounts rest n).sum) := by
      rw [List.sum_cons]
      omega
    have hall : ∀ k ∈ (truncQ (s0 * (n : ℚ)) +
        ((n : ℤ) - (truncQ (s0 * (n : ℚ)) :: rawCounts rest n).sum))
          :: rawCounts rest n, 0 ≤ k := by
      intro k hk
      rcases List.mem_cons.mp hk with rfl | hk
      · exact hfirst
      · exact hcs k hk
    refine ⟨hall, ?_, by simp [rawCounts]⟩
    have := toNat_sum_of_nonneg _ hall
    have hsum : ((truncQ (s0 * (n : ℚ)) +
        ((n : ℤ) - (truncQ (s0 * (n : ℚ)) :: rawCounts rest n).sum))
          :: rawCounts rest n).sum = (n : ℤ) := by
      rw [List.sum_cons, List.sum_cons]
      ring
    omega
  · rw [if_neg hne]
    push_neg at hne
    have hall : ∀ k ∈ truncQ (s0 * (n : ℚ)) :: rawCounts rest n, 0 ≤ k := by
      intro k hk
      rcases List.mem_cons.mp hk with rfl | hk
      · exact hc0
      · exact hcs k hk
    refine ⟨hall, ?_, by simp [rawCounts]⟩
    have := toNat_sum_of_nonneg _ hall
    omega

/-- `pickFirst` satisfies numpy's without-replacement sampling contract. -/
theorem pickFirst_ok : ChooserOK pickFirst := by
  intro pool k hk
  constructor
  · intro x hx
    have hx' := List.mem_toFinset.mp hx
    have hx'' : x ∈ pool.sort (· ≤ ·) := List.take_subset _ _ hx'
    exact (Finset.mem_sort _).mp hx''
  · rw [pickFirst,
      List.toFinset_card_of_nodup ((pool.sort_nodup _).sublist (List.take_sublist _ _)),
      List.length_take, Finset.length_sort]
    exact Nat.min_eq_left hk

/-- The drawing loop can only fail with the choice-size error, never with
the sum-validation error. -/
theorem drawLoop_no_badSum (choose : Finset ℕ → ℕ → Finset ℕ) :
    ∀ (ks : List ℤ) (pool : Finset ℕ) (acc : List (Finset ℕ)),
      drawLoop choose ks pool acc ≠ .error .badSum := by
  intro ks
  induction ks with
  | nil =>
    intro pool acc h
    simp [drawLoop] at h
  | cons k ks ih =>
    intro pool acc
    by_cases hc : (k < 0 ∨ pool.card < k.toNat)
    · rw [drawLoop, if_pos hc]
      simp
    · rw [drawLoop, if_neg hc]
      exact ih _ _

/-- C1 (amended): for two or more non-negative fractions that sum to 1.0
within 1e-4, provided the truncated counts of all fractions after the
first sum to at most the participant count (automatic whenever the fractions sum to at most 1.0 —
otherwise the remainder adjustment drives the first count negative and
`np.random.choice` raises), `get_trial_splits` draws `len(splits)`
participant groups that are pairwise disjoint and together exhaust the
participant-id set, and returns the corresponding trial groups. -/
theorem getTrialSplits_partition (choose : Finset ℕ → ℕ → Finset ℕ)
    (trials : List STrial) (pids : Finset ℕ) (splits : List ℚ)
    (hch : ChooserOK choose)
    (hlen : 2 ≤ splits.length)
    (hpos : ∀ s ∈ splits, 0 ≤ s)
    (hsum : |1 - splits.sum| ≤ (1 : ℚ)/10000)
    (htail : (rawCounts splits.tail pids.card).sum ≤ (pids.card : ℤ)) :
    ∃ gs, participantSplits choose pids splits = .ok gs ∧
      gs.length = splits.length ∧
      gs.Pairwise Disjoint ∧
      unionList gs = pids ∧
      getTrialSplits choose trials pids (some splits) =
        .ok (.grouped (gs.map (fun g =>
          trials.filter (fun t => t.participant_id ∈ g)))) := by
  obtain ⟨s0, rest, rfl⟩ : ∃ s0 rest, splits = s0 :: rest := by
    cases splits with
    | nil => simp at hlen
    | cons a l => exact ⟨a, l, rfl⟩
  obtain ⟨hnn, hsumn, hlencnt⟩ := counts_spec s0 rest pids.card hpos htail
  obtain ⟨gs, heq, hglen, _, hunion, hpw⟩ :=
    drawLoop_partition choose hch
      (adjustFirst (rawCounts (s0 :: rest) pids.card) pids.card) pids []
      hnn hsumn (by simp)
  have hps : participantSplits choose pids (s0 :: rest) = .ok gs := by
    rw [participantSplits, heq, List.nil_append]
  have hlen1 : ¬ ((s0 :: rest).length = 1) := by
    simp only [List.length_cons] at hlen ⊢
    omega
  refine ⟨gs, hps, hglen.trans hlencnt, hpw, hunion, ?_⟩
  simp only [getTrialSplits, Option.getD_some]
  rw [if_neg (not_lt.mpr hsum), if_neg hlen1, hps]

/-- Witness for `getTrialSplits_partition`: splits `[0.7, 0.3]` over the
10 participants `{0,…,9}` and two trials. -/
theorem getTrialSplits_partition_witness :
    ChooserOK pickFirst ∧
    2 ≤ ([(7:ℚ)/10, 3/10] : List ℚ).length ∧
    (∀ s ∈ ([(7:ℚ)/10, 3/10] : List ℚ), 0 ≤ s) ∧
    |1 - ([(7:ℚ)/10, 3/10] : List ℚ).sum| ≤ (1 : ℚ)/10000 ∧
    (rawCounts ([(7:ℚ)/10, 3/10] : List ℚ).tail (Finset.range 10).card).sum ≤
      ((Finset.range 10).card : ℤ) ∧
    (∃ gs, participantSplits pickFirst (Finset.range 10) [(7:ℚ)/10, 3/10] = .ok gs ∧
      gs.length = ([(7:ℚ)/10, 3/10] : List ℚ).length ∧
      gs.Pairwise Disjoint ∧
      unionList gs = Finset.range 10 ∧
      getTrialSplits pickFirst [⟨0, 0⟩, ⟨5, 1⟩] (Finset.range 10)
        (some [(7:ℚ)/10, 3/10]) =
        .ok (.grouped (gs.map (fun g =>
          ([⟨0, 0⟩, ⟨5, 1⟩] : List STrial).filter
            (fun t => t.participant_id ∈ g))))) := by
  have hpos : ∀ s ∈ ([(7:ℚ)/10, 3/10] : List ℚ), 0 ≤ s := by
    intro s hs
    rcases List.mem_cons.mp hs with rfl | hs
    · norm_num
    · rcases List.mem_cons.mp hs with rfl | hs
      · norm_num
      · cases hs
  have hsum : |1 - ([(7:ℚ)/10, 3/10] : List ℚ).sum| ≤ (1 : ℚ)/10000 := by
    rw [List.sum_cons, List.sum_cons, List.sum_nil]
    norm_num
  have htail : (rawCounts ([(7:ℚ)/10, 3/10] : List ℚ).tail
      (Finset.range 10).card).sum ≤ ((Finset.range 10).card : ℤ) := by
    rw [Finset.card_range]
    simp only [List.tail_cons, rawCounts, List.map_cons, List.map_nil,
      List.sum_cons, List.sum_nil]
    rw [truncQ, if_pos (by norm_num)]
    norm_num
  exact ⟨pickFirst_ok, by norm_num, hpos, hsum, htail,
    getTrialSplits_partition pickFirst [⟨0, 0⟩, ⟨5, 1⟩] (Finset.range 10)
      [(7:ℚ)/10, 3/10] pickFirst_ok (by norm_num) hpos hsum htail⟩

/-- C1 counterexample: with 16384 participants and the splits
`[0, 2^-14, 0.5, 0.5]` (non-negative, summing to `1 + 2^-14`, inside the
1e-4 tolerance), the truncated counts are `[0, 1, 8192, 8192]`, summing to
16385, so the remainder adjustment makes the first count `-1` and
`np.random.choice` raises — no partition is returned. -/
theorem getTrialSplits_partition_cex :
    getTrialSplits pickFirst [] (Finset.range 16384)
      (some [0, (1:ℚ)/16384, 1/2, 1/2]) = .error .badChoiceSize := by
  have hsum : ([0, (1:ℚ)/16384, 1/2, 1/2] : List ℚ).sum = 16385/16384 := by
    rw [List.sum_cons, List.sum_cons, List.sum_cons, List.sum_cons, List.sum_nil]
    norm_num
  have hgate : ¬ ((1 : ℚ)/10000 < |1 - ([0, (1:ℚ)/16384, 1/2, 1/2] : List ℚ).sum|) := by
    rw [hsum, show (1:ℚ) - 16385/16384 = -(1/16384) by norm_num, abs_neg,
      abs_of_nonneg (by norm_num)]
    norm_num
  have hraw : rawCounts [0, (1:ℚ)/16384, 1/2, 1/2] 16384 = [0, 1, 8192, 8192] := by
    simp only [rawCounts, List.map_cons, List.map_nil]
    rw [show truncQ (0 * ((16384 : ℕ) : ℚ)) = 0 by
        rw [truncQ, if_pos (by norm_num)]; norm_num,
      show truncQ ((1:ℚ)/16384 * ((16384 : ℕ) : ℚ)) = 1 by
        rw [truncQ, if_pos (by norm_num)]; norm_num,
      show truncQ ((1:ℚ)/2 * ((16384 : ℕ) : ℚ)) = 8192 by
        rw [truncQ, if_pos (by norm_num)]; norm_num]
  have hadj : adjustFirst [0, 1, 8192, 8192] 16384 = [-1, 1, 8192, 8192] := by
    rw [adjustFirst, if_pos (by norm_num [List.sum_cons])]
    norm_num [List.sum_cons]
  have hps : participantSplits pickFirst (Finset.range 16384)
      [0, (1:ℚ)/16384, 1/2, 1/2] = .error .badChoiceSize := by
    rw [participantSplits, Finset.card_range, hraw, hadj, drawLoop,
      if_pos (Or.inl (by norm_num))]
  simp only [getTrialSplits, Option.getD_some]
  rw [if_neg hgate, if_neg (by simp), hps]

/-- C3: `get_trial_splits` raises the "Splits must sum to be 1.0"
ValueError exactly when the fractions sum outside the 1e-4 tolerance; a
sequence within tolerance never produces this error. -/
theorem getTrialSplits_sum_check (choose : Finset ℕ → ℕ → Finset ℕ)
    (trials : List STrial) (pids : Finset ℕ) (splits : List ℚ) :
    ((1 : ℚ)/10000 < |1 - splits.sum| →
      getTrialSplits choose trials pids (some splits) = .error .badSum) ∧
    (|1 - splits.sum| ≤ (1 : ℚ)/10000 →
      getTrialSplits choose trials pids (some splits) ≠ .error .badSum) := by
  constructor
  · intro h
    simp only [getTrialSplits, Option.getD_some]
    rw [if_pos h]
  · intro h
    simp only [getTrialSplits, Option.getD_some]
    rw [if_neg (not_lt.mpr h)]
    by_cases hlen : splits.length = 1
    · rw [if_pos hlen]
      simp
    · rw [if_neg hlen]
      cases heq : participantSplits choose pids splits with
      | error e =>
        cases e with
        | badSum => exact absurd heq (drawLoop_no_badSum choose _ _ _)
        | badChoiceSize => simp [heq]
      | ok gs => simp [heq]

/-- Witness for `getTrialSplits_sum_check`: `[0.5]` sums to 0.5, far from
1.0, so it is rejected. -/
theorem getTrialSplits_sum_check_witness :
    ((1 : ℚ)/10000 < |1 - ([(1:ℚ)/2] : List ℚ).sum|) ∧
    getTrialSplits pickFirst [] ∅ (some [(1:ℚ)/2]) = .error .badSum := by
  have h : (1 : ℚ)/10000 < |1 - ([(1:ℚ)/2] : List ℚ).sum| := by
    rw [List.sum_cons, List.sum_nil, show (1:ℚ) - (1/2 + 0) = 1/2 by norm_num,
      abs_of_nonneg (by norm_num)]
    norm_num
  exact ⟨h, (getTrialSplits_sum_check pickFirst [] ∅ [(1:ℚ)/2]).1 h⟩

/-- C4 counterexample: `splits=[0.3]` is a single split value, yet the call
raises the sum-validation ValueError while `splits=None` returns the flat
trial list — so a single split value is not always identical to omission. -/
theorem getTrialSplits_single_split_cex :
    getTrialSplits pickFirst [] ∅ (some [(3:ℚ)/10]) = .error .badSum ∧
    getTrialSplits pickFirst [] ∅ none = .ok (.flat []) := by
  constructor
  · simp only [getTrialSplits, Option.getD_some]
    rw [if_pos]
    rw [List.sum_cons, List.sum_nil, show (1:ℚ) - (3/10 + 0) = 7/10 by norm_num,
      abs_of_nonneg (by norm_num)]
    norm_num
  · simp only [getTrialSplits, Option.getD_none]
    rw [if_neg (by rw [List.sum_cons, List.sum_nil]; norm_num), if_pos (by simp)]

/-- C4 (amended): `get_trial_splits` with `splits` omitted returns the
full, ungrouped trial list, and a single split value whose sum passes the
1e-4 tolerance check behaves identically to omission; in particular
`splits=[1.0]` returns the same flat trial list as `splits=None`. -/
theorem getTrialSplits_single_split (choose : Finset ℕ → ℕ → Finset ℕ)
    (trials : List STrial) (pids : Finset ℕ) (x : ℚ)
    (hx : |1 - x| ≤ (1 : ℚ)/10000) :
    getTrialSplits choose trials pids none = .ok (.flat trials) ∧
    getTrialSplits choose trials pids (some [x]) = .ok (.flat trials) ∧
    getTrialSplits choose trials pids (some [(1:ℚ)]) =
      getTrialSplits choose trials pids none := by
  have hnone : getTrialSplits choose trials pids none = .ok (.flat trials) := by
    simp only [getTrialSplits, Option.getD_none]
    rw [if_neg (by rw [List.sum_cons, List.sum_nil]; norm_num), if_pos (by simp)]
  have hone : getTrialSplits choose trials pids (some [x]) = .ok (.flat trials) := by
    simp only [getTrialSplits, Option.getD_some]
    rw [if_neg (by rw [List.sum_cons, List.sum_nil, add_zero]; exact not_lt.mpr hx),
      if_pos (by simp)]
  have h1 : getTrialSplits choose trials pids (some [(1:ℚ)]) = .ok (.flat trials) := by
    simp only [getTrialSplits, Option.getD_some]
    rw [if_neg (by rw [List.sum_cons, List.sum_nil]; norm_num), if_pos (by simp)]
  exact ⟨hnone, hone, h1.trans hnone.symm⟩

/-- Witness for `getTrialSplits_single_split` at `x = 1` over two trials. -/
theorem getTrialSplits_single_split_witness :
    (|1 - (1:ℚ)| ≤ (1 : ℚ)/10000) ∧
    getTrialSplits pickFirst [⟨2, 0⟩, ⟨2, 1⟩] (Finset.range 3) none =
      .ok (.flat [⟨2, 0⟩, ⟨2, 1⟩]) ∧
    getTrialSplits pickFirst [⟨2, 0⟩, ⟨2, 1⟩] (Finset.range 3) (some [(1:ℚ)]) =
      .ok (.flat [⟨2, 0⟩, ⟨2, 1⟩]) := by
  have hx : |1 - (1:ℚ)| ≤ (1 : ℚ)/10000 := by
    rw [sub_self, abs_zero]
    norm_num
  have h := getTrialSplits_single_split pickFirst [⟨2, 0⟩, ⟨2, 1⟩]
    (Finset.range 3) 1 hx
  exact ⟨hx, h.1, h.2.1⟩
